import Mathlib

/-!
Shallow embedding of the core of the `httpServer` repository (Go):
the wire codec (`parseRequest`, the `response` writer), the routing table
(`Router.Handle` / `Router.findHandler`), middleware composition and the
per-connection dispatch (`Server.handleConnection`).

Conventions of the embedding:
* Go byte strings are modelled as `List Char` (one `Char` per byte) when they
  travel on the wire, and as Lean `String` for parsed fields, matching Go's
  `string` type.
* Go maps (`map[string]string`, `map[string]map[string]HandlerFunc`) are
  modelled as association lists updated with last-write-wins (`mapSet`) or as
  curried partial functions; Go map iteration order is unspecified, the model
  emits headers in insertion order (no claim depends on the order).
* Writes to the TCP connection are modelled as an emitted list of `Chunk`
  values (status line, header line, end-of-headers, body bytes) instead of a
  flat byte stream, so that "the status line is written at most once" is
  directly expressible.
* `bufio.Reader.ReadString('\n')` is modelled by `readLine` (returns the line
  including the newline, or `none` when the stream ends first — the Go code
  treats the accompanying error as fatal even when partial data is returned;
  `ReadString` assembles fragments, so lines of any length come back whole and
  buffering is invisible to the line phase).
* The buffer does matter for the final body read: `_, err := reader.Read(body)`
  performs at most one underlying read and copies only the bytes the
  `bufio.Reader` holds, discarding the count. `bufLine`/`bufLines` replay the
  4096-byte fill history of the line phase (with the stream fully available,
  each connection read returns everything requested that is still unread) to
  determine how many bytes that single `Read` copies; the rest of the
  zero-initialised body buffer stays NUL.
-/

/-- Go `unicode.IsSpace` restricted to the Latin-1 range (requests are ASCII):
space, tab, newline, vertical tab, form feed, carriage return, NEL, NBSP. -/
def goIsSpace (c : Char) : Bool :=
  c = ' ' || c = '\t' || c = '\n' || c = '\x0b' || c = '\x0c' || c = '\r' ||
  c = '\u0085' || c = '\u00A0'

/-- Left part of Go `strings.TrimSpace`. -/
def trimLeft (l : List Char) : List Char :=
  l.dropWhile goIsSpace

/-- Right part of Go `strings.TrimSpace`. -/
def trimRight (l : List Char) : List Char :=
  (l.reverse.dropWhile goIsSpace).reverse

/-- Go `strings.TrimSpace` on a byte string. -/
def trimSpace (l : List Char) : List Char :=
  trimRight (trimLeft l)

/-- Go `strings.Split(s, sep)` for a single-character separator: every
occurrence of `sep` splits, empty fields are kept, `Split("", sep) = [""]`. -/
def splitOnChar (sep : Char) : List Char → List (List Char)
  | [] => [[]]
  | c :: rest =>
    if c = sep then [] :: splitOnChar sep rest
    else
      match splitOnChar sep rest with
      | [] => [[c]]
      | h :: t => (c :: h) :: t

/-- Go `strings.SplitN(s, sep, 2)` for a single-character separator: split at
the first occurrence only; one element when the separator is absent. -/
def splitN2 (sep : Char) : List Char → List (List Char)
  | [] => [[]]
  | c :: rest =>
    if c = sep then [[], rest]
    else
      match splitN2 sep rest with
      | [x] => [c :: x]
      | [x, y] => [c :: x, y]
      | other => other

/-- Go `bufio.Reader.ReadString('\n')`: the returned line includes the
delimiter; `none` when the stream ends before a newline (the Go caller treats
the error as fatal even though partial data is returned alongside it). -/
def readLine : List Char → Option (List Char × List Char)
  | [] => none
  | c :: rest =>
    if c = '\n' then some ([c], rest)
    else
      match readLine rest with
      | none => none
      | some (l, r) => some (c :: l, r)

/-- Go map assignment `m[k] = v` on an association-list model of
`map[string]string`: overwrite the existing entry or append. -/
def mapSet : List (String × String) → String → String → List (String × String)
  | [], k, v => [(k, v)]
  | (k0, v0) :: rest, k, v =>
    if k0 = k then (k, v) :: rest else (k0, v0) :: mapSet rest k v

/-- Go map lookup `v, ok := m[k]` on the association-list model. -/
def mapGet : List (String × String) → String → Option String
  | [], _ => none
  | (k0, v0) :: rest, k => if k0 = k then some v0 else mapGet rest k

/-- Decimal digit run for `strconv.Atoi`: `none` unless the list is a
non-empty run of ASCII digits. -/
def digitsVal (l : List Char) : Option Nat :=
  if !l.isEmpty && l.all Char.isDigit then
    some (l.foldl (fun n c => 10 * n + (c.toNat - '0'.toNat)) 0)
  else
    none

/-- Go `strconv.Atoi`: optional single leading sign, then a non-empty digit
run; values outside the 64-bit signed range are a range error. -/
def Atoi (s : String) : Option Int :=
  let withSign : Int → List Char → Option Int := fun sgn ds =>
    match digitsVal ds with
    | none => none
    | some n =>
      let v : Int := sgn * (n : Int)
      if -(2 ^ 63) ≤ v ∧ v ≤ 2 ^ 63 - 1 then some v else none
  match s.data with
  | '+' :: ds => withSign 1 ds
  | '-' :: ds => withSign (-1) ds
  | ds => withSign 1 ds

/-- Go `StatusText` from http.go: fixed table, empty string for unknown
codes. -/
def StatusText (code : Nat) : String :=
  match code with
  | 200 => "OK"
  | 400 => "Bad Request"
  | 404 => "Not Found"
  | 405 => "Method Not Allowed"
  | 500 => "Internal Server Error"
  | _ => ""

/-- One write to the TCP connection, keeping the wire structure visible:
`fmt.Fprintf(conn, "HTTP/1.1 %d %s\r\n", ...)` is a `statusLine` chunk, each
`fmt.Fprintf(conn, "%s: %s\r\n", ...)` a `headerLine` chunk, the terminating
`fmt.Fprint(conn, "\r\n")` a `headerEnd` chunk, and `conn.Write(data)` a
`body` chunk. -/
inductive Chunk where
  | statusLine (code : Nat) (text : String)
  | headerLine (key value : String)
  | headerEnd
  | body (data : List Char)
deriving DecidableEq, Repr

/-- The concrete `response` struct behind the `ResponseWriter` interface in
http.go, minus the `conn` field: writes to the connection are returned as an
emitted `List Chunk` by each operation instead. -/
structure response where
  headers : List (String × String)
  statusCode : Nat
  wroteHeader : Bool
deriving DecidableEq, Repr

/-- `newResponse(conn)` from http.go: empty headers, status 200, headers not
yet written. -/
def newResponse : response :=
  { headers := [], statusCode := 200, wroteHeader := false }

/-- `(*response).SetHeader` from http.go. -/
def response.SetHeader (rw : response) (key value : String) : response :=
  { rw with headers := mapSet rw.headers key value }

/-- `(*response).WriteHeader` from http.go: a no-op once `wroteHeader` is set;
otherwise record the code and emit the status line, every stored header, and
the blank line, then set the flag. -/
def response.WriteHeader (rw : response) (statusCode : Nat) :
    response × List Chunk :=
  if rw.wroteHeader then (rw, [])
  else
    ({ rw with statusCode := statusCode, wroteHeader := true },
      Chunk.statusLine statusCode (StatusText statusCode)
        :: rw.headers.map (fun kv => Chunk.headerLine kv.1 kv.2)
        ++ [Chunk.headerEnd])

/-- `(*response).Write` from http.go: on the first write before headers are
flushed, default `Content-Length` to the byte length of this write and flush
the headers, then write the body bytes. -/
def response.Write (rw : response) (data : List Char) : response × List Chunk :=
  if rw.wroteHeader then (rw, [Chunk.body data])
  else
    let rw1 :=
      if (mapGet rw.headers "Content-Length").isNone then
        rw.SetHeader "Content-Length" (toString data.length)
      else rw
    let flushed := rw1.WriteHeader rw1.statusCode
    (flushed.1, flushed.2 ++ [Chunk.body data])

/-- `(*response).Status` from http.go. -/
def response.Status (rw : response) : Nat :=
  rw.statusCode

/-- `httpError` from http.go: set the Content-Type header, write the status
header, then `fmt.Fprintf(w, "%d %s", ...)` which goes through `w.Write`. -/
def httpError (w : response) (code : Nat) : response × List Chunk :=
  let w1 := w.SetHeader "Content-Type" "text/plain; charset=utf-8"
  let h := w1.WriteHeader code
  let b := h.1.Write (toString code ++ " " ++ StatusText code).data
  (b.1, h.2 ++ b.2)

/-- Failure modes of `parseRequest` in http.go (the Go code returns distinct
`error` values; only their distinctness matters here). -/
inductive ParseErr where
  | connClosed
  | malformedRequestLine
  | invalidContentLength
deriving DecidableEq, Repr

/-- The `Request` struct from http.go, minus the `Conn` back-reference (used
only for low-level writes, which the model routes through `response`). -/
structure Request where
  Method : String
  Path : String
  Version : String
  Headers : List (String × String)
  Body : String
deriving DecidableEq, Repr

/-- The header loop of `parseRequest` in http.go. The per-iteration
`reader.ReadString('\n')` is inlined (characters are accumulated in `lineAcc`
until a newline) so that the recursion is structural on the stream; a line is
`lineAcc.reverse ++ ['\n']`, exactly what `ReadString` returns. An empty line
after trimming ends the headers; lines without a colon are skipped; otherwise
the line is split at the first colon and both sides are trimmed. -/
def parseHeaders :
    List Char → List Char → List (String × String) →
    Option (List (String × String) × List Char)
  | [], _, _ => none
  | c :: rest, lineAcc, hdrs =>
    if c = '\n' then
      let line := trimSpace (lineAcc.reverse ++ ['\n'])
      if line = [] then some (hdrs, rest)
      else
        match splitN2 ':' line with
        | [k, v] =>
          parseHeaders rest []
            (mapSet hdrs (String.mk (trimSpace k)) (String.mk (trimSpace v)))
        | _ => parseHeaders rest [] hdrs
    else parseHeaders rest (c :: lineAcc) hdrs

/-- Split a byte string after every newline, keeping the delimiter with its
segment; the segments are exactly the lines that successive
`reader.ReadString('\n')` calls consume, so their lengths drive the replay of
the buffered reader's fill history. -/
def splitAfterNL : List Char → List (List Char)
  | [] => []
  | c :: rest =>
    if c = '\n' then [c] :: splitAfterNL rest
    else
      match splitAfterNL rest with
      | [] => [[c]]
      | h :: t => (c :: h) :: t

/-- Default buffer size of Go's `bufio.NewReader`. -/
def bufSize : Nat := 4096

/-- Replay of one `reader.ReadString('\n')` call against the `bufio.Reader`,
counting bytes: `lineLen` bytes of the line remain to be located, `buffered`
bytes are in the buffer, `unpulled` bytes of the stream have not been read
from the connection yet. Per Go's `ReadSlice`/`ReadBytes` loop: a newline
inside the buffered region consumes the line; a full buffer without the
newline is consumed as a fragment and the search continues; otherwise one
`fill` performs a single connection read (the stream is fully available, so
it returns `min` of the buffer space and the unpulled bytes), and an empty
connection is an EOF error. Each step either consumes `bufSize` line bytes or
tops the buffer up, so `lineLen + 2` steps of fuel always suffice and the
fuel-out branch is unreachable. -/
def bufLine : Nat → Nat → Nat → Nat → Option (Nat × Nat)
  | 0, _, _, _ => none
  | fuel + 1, lineLen, buffered, unpulled =>
    if lineLen ≤ buffered then some (buffered - lineLen, unpulled)
    else if buffered = bufSize then bufLine fuel (lineLen - bufSize) 0 unpulled
    else if unpulled = 0 then none
    else
      let k := min (bufSize - buffered) unpulled
      bufLine fuel lineLen (buffered + k) (unpulled - k)

/-- Replay the whole line-reading phase: fold `bufLine` over the lengths of
the consumed lines, returning the buffered and unpulled byte counts the
`bufio.Reader` holds when the body read happens. -/
def bufLines : List Nat → Nat → Nat → Option (Nat × Nat)
  | [], buffered, unpulled => some (buffered, unpulled)
  | l :: ls, buffered, unpulled =>
    match bufLine (l + 2) l buffered unpulled with
    | none => none
    | some (b, u) => bufLines ls b u

/-- `parseRequest` from http.go. The stream is the fully-available byte
sequence of the connection (every connection read returns as many bytes as
are requested and still unread). Request line: one CRLF-terminated line split
on single spaces into exactly three tokens. Headers: `parseHeaders`. Body: if
a `Content-Length` header parses via `Atoi` to a value > 0, the single
`_, err := reader.Read(body)` call is replayed against the `bufio.Reader`
state left behind by the line reads (`bufLines` over the consumed line
lengths): `Read` copies only the bytes still buffered from the header-phase
fills — or, with an empty buffer, the bytes of one further connection read —
and the Go code discards the returned count, so the zero-initialised
`length`-byte body buffer keeps its NUL padding past the copied bytes. `Read`
errors only when both the buffer and the connection are exhausted. -/
def parseRequest (input : List Char) : Except ParseErr Request :=
  match readLine input with
  | none => .error ParseErr.connClosed
  | some (requestLine, afterLine) =>
    match splitOnChar ' ' (trimSpace requestLine) with
    | [method, path, version] =>
      match parseHeaders afterLine [] [] with
      | none => .error ParseErr.connClosed
      | some (hdrs, rest) =>
        match mapGet hdrs "Content-Length" with
        | none =>
          .ok ⟨String.mk method, String.mk path, String.mk version, hdrs, ""⟩
        | some clStr =>
          match Atoi clStr with
          | none => .error ParseErr.invalidContentLength
          | some len =>
            if 0 < len then
              if rest.isEmpty then .error ParseErr.connClosed
              else
                let lineLens :=
                  (splitAfterNL (input.take (input.length - rest.length))).map
                    List.length
                match bufLines lineLens 0 input.length with
                | none => .error ParseErr.connClosed
                | some (buffered, _) =>
                  let avail := if 0 < buffered then buffered else rest.length
                  let n := min len.toNat avail
                  .ok ⟨String.mk method, String.mk path, String.mk version, hdrs,
                    String.mk
                      (rest.take n ++ List.replicate (len.toNat - n) (Char.ofNat 0))⟩
            else
              .ok ⟨String.mk method, String.mk path, String.mk version, hdrs, ""⟩
    | _ => .error ParseErr.malformedRequestLine

/-- `HandlerFunc` from server.go, in state-passing form: a handler consumes
the response writer and the request and returns the updated writer together
with the chunks it wrote to the connection. -/
abbrev HandlerFunc := response → Request → response × List Chunk

/-- `Middleware` from server.go. -/
abbrev Middleware := HandlerFunc → HandlerFunc

/-- The `Router` struct from server.go. The nested Go map
`map[string]map[string]HandlerFunc` is modelled as a curried partial map; a
missing inner map and an empty inner map are indistinguishable to
`findHandler`, which only performs the two lookups. -/
structure Router where
  routes : String → String → Option HandlerFunc
  notFoundHandler : HandlerFunc

/-- `NewRouter` from server.go: no routes, and the default fallback handler
replies with a 404 via `httpError`. -/
def NewRouter : Router :=
  { routes := fun _ _ => none,
    notFoundHandler := fun w _ => httpError w 404 }

/-- `(*Router).Handle` from server.go: `rt.routes[method][path] = handler`. -/
def Router.Handle (rt : Router) (method path : String) (handler : HandlerFunc) :
    Router :=
  { rt with
    routes := fun m p =>
      if m = method ∧ p = path then some handler else rt.routes m p }

/-- `(*Router).SetNotFoundHandler` from server.go. -/
def Router.SetNotFoundHandler (rt : Router) (handler : HandlerFunc) : Router :=
  { rt with notFoundHandler := handler }

/-- `(*Router).findHandler` from server.go: exact-match lookup, else the
configured fallback. -/
def Router.findHandler (rt : Router) (method path : String) : HandlerFunc :=
  match rt.routes method path with
  | some handler => handler
  | none => rt.notFoundHandler

/-- The middleware-wrapping loop of `(*Server).handleConnection` in server.go:
`for i := len(mws)-1; i >= 0; i-- { handler = mws[i](handler) }`, i.e. a left
fold over the reversed registration list, so `mws[0]` wraps outermost.
Polymorphic in the handler type so that execution order can be observed on a
trace-passing handler type as well. -/
def wrapMiddleware {H : Type} (mws : List (H → H)) (handler : H) : H :=
  mws.reverse.foldl (fun h mw => mw h) handler

/-- The `Server` struct from server.go (routing table plus middleware list;
the listener address and wait group play no role in the claims). -/
structure Server where
  router : Router
  middleware : List Middleware

/-- `(*Server).Handle` from server.go. -/
def Server.Handle (s : Server) (method path : String) (handler : HandlerFunc) :
    Server :=
  { s with router := s.router.Handle method path handler }

/-- `(*Server).Use` from server.go: append to the middleware list. -/
def Server.Use (s : Server) (mw : Middleware) : Server :=
  { s with middleware := s.middleware ++ [mw] }

/-- The request/response part of `(*Server).handleConnection` from server.go
(deadline handling and logging are real-time side effects outside the model):
on a parse failure write a 400 via `httpError` on a fresh writer and close;
otherwise resolve the handler, wrap the middleware around it, and run it on a
fresh writer. The returned chunks are everything written to the connection. -/
def Server.handleConnection (s : Server) (input : List Char) : List Chunk :=
  match parseRequest input with
  | .error _ => (httpError newResponse 400).2
  | .ok req =>
    let handler :=
      wrapMiddleware s.middleware (s.router.findHandler req.Method req.Path)
    (handler newResponse req).2

/-- First status code on the wire, if any. -/
def wireStatus (out : List Chunk) : Option Nat :=
  out.findSome? fun c =>
    match c with
    | Chunk.statusLine code _ => some code
    | _ => none

/-- `homeHandler` from handlers.go. -/
def homeHandler : HandlerFunc := fun w _ =>
  let w1 := w.SetHeader "Content-Type" "text/plain; charset=utf-8"
  w1.Write "Welcome to the homepage!".data

/-- `submitHandler` from handlers.go. -/
def submitHandler : HandlerFunc := fun w r =>
  let responseMessage := "Received your POST request with body:\n" ++ r.Body
  let w1 := w.SetHeader "Content-Type" "text/plain; charset=utf-8"
  w1.Write responseMessage.data

/-- Go `strings.TrimPrefix(s, "/")`: drop one leading slash if present. -/
def trimLeadingSlash (s : String) : String :=
  if s.startsWith "/" then s.drop 1 else s

/-- `serveStaticFile` from handlers.go, the fallback used for static files.
The external collaborators are passed as capabilities: `clean` for
`filepath.Clean`, `readFile` for `os.ReadFile` (`none` = error), `mimeOf` for
`mime.TypeByExtension(filepath.Ext ..)`; `filepath.Join("public", p)` is
modelled as `"public/" ++ p`. Non-GET methods get a 405, a cleaned path still
starting with ".." a 400, a failed read a 404; otherwise the file is served
with an explicit `WriteHeader 200` before the body write. -/
def serveStaticFile (clean : String → String)
    (readFile : String → Option (List Char)) (mimeOf : String → String) :
    HandlerFunc := fun w r =>
  if r.Method ≠ "GET" then httpError w 405
  else
    let cleanPath := clean (trimLeadingSlash r.Path)
    if cleanPath.startsWith ".." then httpError w 400
    else
      let filePath := "public/" ++ cleanPath
      match readFile filePath with
      | none => httpError w 404
      | some data =>
        let contentType :=
          if mimeOf filePath = "" then "application/octet-stream"
          else mimeOf filePath
        let w1 := w.SetHeader "Content-Type" contentType
        let h := w1.WriteHeader 200
        let b := h.1.Write data
        (b.1, h.2 ++ b.2)

/-- One call a handler can make on its `ResponseWriter`, for stating
invariants over arbitrary handler behaviour. -/
inductive ROp where
  | setHeader (key value : String)
  | writeHeader (code : Nat)
  | write (data : List Char)
deriving DecidableEq, Repr

/-- Execute one `ResponseWriter` call. -/
def runOp (rw : response) : ROp → response × List Chunk
  | ROp.setHeader k v => (rw.SetHeader k v, [])
  | ROp.writeHeader c => rw.WriteHeader c
  | ROp.write d => rw.Write d

/-- Execute a sequence of `ResponseWriter` calls, concatenating everything
written to the connection. -/
def runOps : response → List ROp → response × List Chunk
  | rw, [] => (rw, [])
  | rw, op :: ops =>
    let x := runOp rw op
    let y := runOps x.1 ops
    (y.1, x.2 ++ y.2)

/-- Whether a wire chunk is a status line. -/
def isStatusChunk : Chunk → Bool
  | Chunk.statusLine _ _ => true
  | _ => false

/-- Whether a wire chunk is body bytes. -/
def isBodyChunk : Chunk → Bool
  | Chunk.body _ => true
  | _ => false

/-- A tracing middleware in the shape of `loggingMiddleware` from handlers.go:
it appends a named before-event, invokes `next`, then appends a named
after-event, on a trace-passing handler type. -/
def tMw (name : String) : (List String → List String) → List String → List String :=
  fun next t => next (t ++ [name ++ "-before"]) ++ [name ++ "-after"]

/-- A tracing final handler: appends its own name to the trace. -/
def tH (name : String) : List String → List String :=
  fun t => t ++ [name]

/-- A registration list applied to a router via repeated `Handle` calls, in
order. -/
def applyRegs (rt : Router) (regs : List (String × String × HandlerFunc)) :
    Router :=
  regs.foldl (fun r e => r.Handle e.1 e.2.1 e.2.2) rt

/-- The handler most recently registered for `(m, p)` in a registration list,
if any (specification-side description of last-write-wins). -/
def lastFor (regs : List (String × String × HandlerFunc)) (m p : String) :
    Option HandlerFunc :=
  ((regs.filter fun e => e.1 == m && e.2.1 == p).getLast?).map fun e => e.2.2

/-- A request-line token that survives `TrimSpace` and space-splitting intact:
non-empty and free of Go whitespace (hence of spaces, CR and LF). -/
def tokenWF (xs : List Char) : Bool :=
  !xs.isEmpty && xs.all fun c => !goIsSpace c

/-- A header `(name, value)` pair that the permissive header parser returns
verbatim: non-empty colon-free name without whitespace; value free of LF and
already trimmed (no leading or trailing Go whitespace). -/
def headerWF (kv : List Char × List Char) : Bool :=
  !kv.1.isEmpty && (kv.1.all fun c => !goIsSpace c && !(c = ':' : Bool)) &&
  (kv.2.all fun c => !(c = '\n' : Bool)) &&
  (kv.2.head?.all fun c => !goIsSpace c) &&
  (kv.2.getLast?.all fun c => !goIsSpace c)

/-- Wire form of one header line, `Name:Value CRLF`. -/
def renderHeader (kv : List Char × List Char) : List Char :=
  kv.1 ++ ':' :: kv.2 ++ ['\r', '\n']

/-- Wire form of a header section (without the terminating blank line). -/
def renderHeaders (hs : List (List Char × List Char)) : List Char :=
  hs.foldr (fun kv acc => renderHeader kv ++ acc) []

/-- The header map the Go loop builds from a list of parsed pairs:
last-write-wins insertion in order. -/
def collectHeaders (hs : List (List Char × List Char)) :
    List (String × String) :=
  hs.foldl (fun t kv => mapSet t (String.mk kv.1) (String.mk kv.2)) []

lemma dropWhile_append_of_all {α : Type} (p : α → Bool) (a b : List α)
    (h : ∀ x ∈ a, p x = true) :
    (a ++ b).dropWhile p = b.dropWhile p := by
  induction a with
  | nil => rfl
  | cons x xs ih =>
    simp only [List.cons_append, List.dropWhile_cons]
    rw [h x (by simp)]
    simp only [ite_true]
    exact ih fun y hy => h y (by simp [hy])

lemma dropWhile_eq_self_of_head {α : Type} (p : α → Bool) (l : List α)
    (h : ∀ c, l.head? = some c → p c = false) :
    l.dropWhile p = l := by
  cases l with
  | nil => rfl
  | cons x xs =>
    simp only [List.dropWhile_cons]
    rw [h x rfl]
    simp

lemma trimSpace_append_spaces (xs sp : List Char)
    (hsp : ∀ c ∈ sp, goIsSpace c = true)
    (hhead : ∀ c, xs.head? = some c → goIsSpace c = false)
    (hlast : ∀ c, xs.getLast? = some c → goIsSpace c = false) :
    trimSpace (xs ++ sp) = xs := by
  cases xs with
  | nil =>
    simp only [List.nil_append, trimSpace, trimLeft, trimRight]
    rw [List.dropWhile_eq_nil_iff.mpr hsp]
    rfl
  | cons x xs =>
    have hx : goIsSpace x = false := hhead x rfl
    unfold trimSpace trimLeft trimRight
    rw [List.cons_append, List.dropWhile_cons, hx]
    simp only [Bool.false_eq_true, ite_false]
    rw [← List.cons_append, List.reverse_append, dropWhile_append_of_all _ _ _ (by
      intro c hc
      exact hsp c (by simpa using hc))]
    rw [dropWhile_eq_self_of_head _ _ (by
      intro c hc
      apply hlast
      rwa [← List.head?_reverse])]
    simp

lemma trimSpace_eq_self (v : List Char)
    (hhead : ∀ c, v.head? = some c → goIsSpace c = false)
    (hlast : ∀ c, v.getLast? = some c → goIsSpace c = false) :
    trimSpace v = v := by
  have := trimSpace_append_spaces v [] (by simp) hhead hlast
  simpa using this

lemma splitOnChar_eq_single (sep : Char) (xs : List Char) (h : sep ∉ xs) :
    splitOnChar sep xs = [xs] := by
  induction xs with
  | nil => rfl
  | cons c rest ih =>
    have hc : ¬c = sep := fun hc => h (hc ▸ List.mem_cons_self c rest)
    have hrest : sep ∉ rest := fun hr => h (List.mem_cons_of_mem c hr)
    simp [splitOnChar, hc, ih hrest]

lemma splitOnChar_append (sep : Char) (xs ys : List Char) (h : sep ∉ xs) :
    splitOnChar sep (xs ++ sep :: ys) = xs :: splitOnChar sep ys := by
  induction xs with
  | nil => simp [splitOnChar]
  | cons c rest ih =>
    have hc : ¬c = sep := fun hc => h (hc ▸ List.mem_cons_self c rest)
    have hrest : sep ∉ rest := fun hr => h (List.mem_cons_of_mem c hr)
    simp [splitOnChar, hc, ih hrest]

lemma splitN2_append (sep : Char) (k v : List Char) (h : sep ∉ k) :
    splitN2 sep (k ++ sep :: v) = [k, v] := by
  induction k with
  | nil => simp [splitN2]
  | cons c rest ih =>
    have hc : ¬c = sep := fun hc => h (hc ▸ List.mem_cons_self c rest)
    have hrest : sep ∉ rest := fun hr => h (List.mem_cons_of_mem c hr)
    simp [splitN2, hc, ih hrest]

lemma readLine_append (xs rest : List Char) (h : '\n' ∉ xs) :
    readLine (xs ++ '\n' :: rest) = some (xs ++ ['\n'], rest) := by
  induction xs with
  | nil => simp [readLine]
  | cons c cs ih =>
    have hc : ¬c = '\n' := fun hc => h (hc ▸ List.mem_cons_self c cs)
    have hcs : '\n' ∉ cs := fun hr => h (List.mem_cons_of_mem c hr)
    simp [readLine, hc, ih hcs]

lemma mapGet_mapSet_self (m : List (String × String)) (k v : String) :
    mapGet (mapSet m k v) k = some v := by
  induction m with
  | nil => simp [mapSet, mapGet]
  | cons kv rest ih =>
    by_cases hk : kv.1 = k
    · simp [mapSet, mapGet, hk]
    · simp [mapSet, mapGet, hk, ih]

lemma mapGet_mapSet_ne (m : List (String × String)) (k v k0 : String)
    (h : k0 ≠ k) :
    mapGet (mapSet m k v) k0 = mapGet m k0 := by
  induction m with
  | nil => simp [mapSet, mapGet, Ne.symm h]
  | cons kv rest ih =>
    by_cases hk : kv.1 = k
    · simp [mapSet, mapGet, hk, fun he => h he, Ne.symm h]
    · simp [mapSet, mapGet, hk, ih]

lemma key_ne_of_mapGet_none (m : List (String × String)) (k : String)
    (h : mapGet m k = none) : ∀ kv ∈ m, kv.1 ≠ k := by
  induction m with
  | nil => simp
  | cons kv0 rest ih =>
    intro kv hkv
    by_cases hk : kv0.1 = k
    · exfalso
      simp [mapGet, hk] at h
    · rcases List.mem_cons.mp hkv with h1 | h2
      · subst h1
        simpa using hk
      · exact ih (by simpa [mapGet, hk] using h) kv h2

lemma mem_of_getLast?_eq (l : List Char) (c : Char) (h : l.getLast? = some c) :
    c ∈ l := by
  have hx : c ∈ l.getLast? := h
  rcases List.mem_getLast?_eq_getLast hx with ⟨hne, heq⟩
  exact heq ▸ List.getLast_mem hne

lemma parseHeaders_line (xs : List Char) :
    ∀ (lineAcc rest : List Char) (hdrs : List (String × String)),
    '\n' ∉ xs →
    parseHeaders (xs ++ '\n' :: rest) lineAcc hdrs =
      (if trimSpace (lineAcc.reverse ++ xs ++ ['\n']) = [] then some (hdrs, rest)
       else
         match splitN2 ':' (trimSpace (lineAcc.reverse ++ xs ++ ['\n'])) with
         | [k, v] =>
           parseHeaders rest []
             (mapSet hdrs (String.mk (trimSpace k)) (String.mk (trimSpace v)))
         | _ => parseHeaders rest [] hdrs) := by
  induction xs with
  | nil =>
    intro lineAcc rest hdrs _
    simp [parseHeaders]
  | cons x xs ih =>
    intro lineAcc rest hdrs h
    have hx : ¬x = '\n' := fun hx => h (hx ▸ List.mem_cons_self x xs)
    have hxs : '\n' ∉ xs := fun hr => h (List.mem_cons_of_mem x hr)
    rw [List.cons_append]
    show parseHeaders (x :: (xs ++ '\n' :: rest)) lineAcc hdrs = _
    rw [parseHeaders]
    simp only [hx, ite_false]
    rw [ih (x :: lineAcc) rest hdrs hxs]
    simp [List.append_assoc]

lemma headerWF_parts (k v : List Char) (h : headerWF (k, v) = true) :
    k ≠ [] ∧ (∀ c ∈ k, goIsSpace c = false ∧ c ≠ ':') ∧
    (∀ c ∈ v, c ≠ '\n') ∧
    (∀ c, v.head? = some c → goIsSpace c = false) ∧
    (∀ c, v.getLast? = some c → goIsSpace c = false) := by
  simp only [headerWF, Bool.and_eq_true, List.all_eq_true, Bool.not_eq_true'] at h
  obtain ⟨⟨⟨⟨h1, h2⟩, h3⟩, h4⟩, h5⟩ := h
  refine ⟨?_, ?_, ?_, ?_, ?_⟩
  · intro hk
    simp [hk] at h1
  · intro c hc
    have := h2 c hc
    constructor
    · simpa using this.1
    · intro he
      rw [he] at this
      simpa using this.2
  · intro c hc he
    have := h3 c hc
    rw [he] at this
    simp at this
  · intro c hc
    rw [hc] at h4
    simpa [Option.all] using h4
  · intro c hc
    rw [hc] at h5
    simpa [Option.all] using h5

lemma tokenWF_parts (xs : List Char) (h : tokenWF xs = true) :
    xs ≠ [] ∧ ∀ c ∈ xs, goIsSpace c = false := by
  simp only [tokenWF, Bool.and_eq_true, List.all_eq_true, Bool.not_eq_true'] at h
  exact ⟨fun hk => by simp [hk] at h, fun c hc => h.2 c hc⟩

lemma parseHeaders_render (hs : List (List Char × List Char)) :
    ∀ (hdrs : List (String × String)) (rest : List Char),
    (∀ kv ∈ hs, headerWF kv = true) →
    parseHeaders (renderHeaders hs ++ '\r' :: '\n' :: rest) [] hdrs =
      some
        (hs.foldl (fun t kv => mapSet t (String.mk kv.1) (String.mk kv.2)) hdrs,
         rest) := by
  induction hs with
  | nil =>
    intro hdrs rest _
    have h := parseHeaders_line ['\r'] [] rest hdrs (by decide)
    simp only [renderHeaders, List.foldr_nil, List.nil_append, List.foldl_nil]
    rw [show ('\r' :: '\n' :: rest : List Char) = ['\r'] ++ '\n' :: rest from rfl,
      h]
    rw [if_pos (by decide)]
  | cons kv t ih =>
    intro hdrs rest hwf
    obtain ⟨k, v⟩ := kv
    obtain ⟨hk_ne, hk_all, hv_nl, hv_head, hv_last⟩ :=
      headerWF_parts k v (hwf (k, v) (List.mem_cons_self _ _))
    have hstream :
        renderHeaders ((k, v) :: t) ++ '\r' :: '\n' :: rest =
          (k ++ ':' :: v ++ ['\r']) ++
            '\n' :: (renderHeaders t ++ '\r' :: '\n' :: rest) := by
      simp [renderHeaders, renderHeader, List.append_assoc]
    have hnl : '\n' ∉ (k ++ ':' :: v ++ ['\r']) := by
      intro hmem
      simp only [List.mem_append, List.mem_cons, List.mem_singleton] at hmem
      rcases hmem with (hk | hcol | hv) | hr
      · exact absurd (hk_all '\n' hk).1 (by decide)
      · exact absurd hcol (by decide)
      · exact absurd rfl (hv_nl '\n' hv)
      · exact absurd hr (by decide)
    have hassoc :
        (k ++ ':' :: v ++ ['\r']) ++ ['\n'] = (k ++ ':' :: v) ++ ['\r', '\n'] := by
      simp [List.append_assoc]
    have hline_eq : trimSpace ((k ++ ':' :: v ++ ['\r']) ++ ['\n']) = k ++ ':' :: v := by
      rw [hassoc]
      apply trimSpace_append_spaces
      · decide
      · intro c hc
        cases k with
        | nil => exact absurd rfl hk_ne
        | cons k0 ktl =>
          rw [List.cons_append] at hc
          simp only [List.head?_cons, Option.some.injEq] at hc
          exact (hk_all c (hc ▸ List.mem_cons_self k0 _)).1
      · intro c hc
        cases v with
        | nil =>
          rw [List.getLast?_append_cons] at hc
          simp only [List.getLast?_singleton, Option.some.injEq] at hc
          subst hc
          decide
        | cons v0 vtl =>
          rw [List.getLast?_append_cons, List.getLast?_cons_cons] at hc
          exact hv_last c hc
    have hcolon : ':' ∉ k := fun hc => (hk_all ':' hc).2 rfl
    have hk_trim : trimSpace k = k := by
      apply trimSpace_eq_self
      · intro c hc
        exact (hk_all c (List.mem_of_mem_head? hc)).1
      · intro c hc
        exact (hk_all c (mem_of_getLast?_eq k c hc)).1
    have hv_trim : trimSpace v = v := trimSpace_eq_self v hv_head hv_last
    rw [hstream,
      parseHeaders_line (k ++ ':' :: v ++ ['\r']) []
        (renderHeaders t ++ '\r' :: '\n' :: rest) hdrs hnl]
    simp only [List.reverse_nil, List.nil_append]
    rw [hline_eq]
    rw [if_neg (by simp)]
    rw [splitN2_append ':' k v hcolon]
    simp only [hk_trim, hv_trim]
    rw [ih (mapSet hdrs (String.mk k) (String.mk v)) rest
      (fun kv0 hkv0 => hwf kv0 (List.mem_cons_of_mem _ hkv0))]
    simp

lemma notMem_of_clean (xs : List Char) (c : Char)
    (hall : ∀ x ∈ xs, goIsSpace x = false) (hc : goIsSpace c = true) :
    c ∉ xs := fun hmem => by rw [hall c hmem] at hc; cases hc

lemma parseRequest_single_read (m p v : List Char)
    (hs : List (List Char × List Char)) (rest : List Char) (clStr : String)
    (N : Int) (B U n : Nat)
    (hm : tokenWF m = true) (hp : tokenWF p = true) (hv : tokenWF v = true)
    (hwf : ∀ kv ∈ hs, headerWF kv = true)
    (hcl : mapGet (collectHeaders hs) "Content-Length" = some clStr)
    (hatoi : Atoi clStr = some N)
    (hpos : 0 < N)
    (hrest_ne : rest.isEmpty = false)
    (hbuf : bufLines
        ((splitAfterNL
          (((m ++ ' ' :: (p ++ ' ' :: v)) ++ '\r' :: '\n' ::
              (renderHeaders hs ++ '\r' :: '\n' :: rest)).take
            (((m ++ ' ' :: (p ++ ' ' :: v)) ++ '\r' :: '\n' ::
                (renderHeaders hs ++ '\r' :: '\n' :: rest)).length -
              rest.length))).map List.length)
        0
        ((m ++ ' ' :: (p ++ ' ' :: v)) ++ '\r' :: '\n' ::
            (renderHeaders hs ++ '\r' :: '\n' :: rest)).length = some (B, U))
    (hn : n = min N.toNat (if 0 < B then B else rest.length)) :
    parseRequest
        ((m ++ ' ' :: (p ++ ' ' :: v)) ++ '\r' :: '\n' ::
          (renderHeaders hs ++ '\r' :: '\n' :: rest)) =
      Except.ok
        { Method := String.mk m, Path := String.mk p, Version := String.mk v,
          Headers := collectHeaders hs,
          Body := String.mk
            (rest.take n ++ List.replicate (N.toNat - n) (Char.ofNat 0)) } := by
  obtain ⟨hm_ne, hm_all⟩ := tokenWF_parts m hm
  obtain ⟨hp_ne, hp_all⟩ := tokenWF_parts p hp
  obtain ⟨hv_ne, hv_all⟩ := tokenWF_parts v hv
  have hinput :
      (m ++ ' ' :: (p ++ ' ' :: v)) ++ '\r' :: '\n' ::
          (renderHeaders hs ++ '\r' :: '\n' :: rest) =
        ((m ++ ' ' :: (p ++ ' ' :: v)) ++ ['\r']) ++
          '\n' :: (renderHeaders hs ++ '\r' :: '\n' :: rest) := by
    simp [List.append_assoc]
  have hnl : '\n' ∉ ((m ++ ' ' :: (p ++ ' ' :: v)) ++ ['\r']) := by
    intro hmem
    simp only [List.mem_append, List.mem_cons, List.mem_singleton] at hmem
    rcases hmem with (hm1 | hsp1 | hp1 | hsp2 | hv1) | hr
    · exact absurd (hm_all '\n' hm1) (by decide)
    · exact absurd hsp1 (by decide)
    · exact absurd (hp_all '\n' hp1) (by decide)
    · exact absurd hsp2 (by decide)
    · exact absurd (hv_all '\n' hv1) (by decide)
    · exact absurd hr (by decide)
  have hread :
      readLine
          (((m ++ ' ' :: (p ++ ' ' :: v)) ++ ['\r']) ++
            '\n' :: (renderHeaders hs ++ '\r' :: '\n' :: rest)) =
        some (((m ++ ' ' :: (p ++ ' ' :: v)) ++ ['\r']) ++ ['\n'],
          renderHeaders hs ++ '\r' :: '\n' :: rest) :=
    readLine_append _ _ hnl
  have hassoc :
      ((m ++ ' ' :: (p ++ ' ' :: v)) ++ ['\r']) ++ ['\n'] =
        (m ++ ' ' :: (p ++ ' ' :: v)) ++ ['\r', '\n'] := by
    simp [List.append_assoc]
  have hhead : ∀ c, (m ++ ' ' :: (p ++ ' ' :: v)).head? = some c →
      goIsSpace c = false := by
    intro c hc
    cases m with
    | nil => exact absurd rfl hm_ne
    | cons m0 mtl =>
      have h0 : ((m0 :: mtl) ++ ' ' :: (p ++ ' ' :: v)).head? = some m0 := rfl
      rw [h0] at hc
      cases hc
      exact hm_all c (List.mem_cons_self _ _)
  have hlast : ∀ c, (m ++ ' ' :: (p ++ ' ' :: v)).getLast? = some c →
      goIsSpace c = false := by
    intro c hc
    have hshape : m ++ ' ' :: (p ++ ' ' :: v) = (m ++ ' ' :: p) ++ ' ' :: v := by
      simp [List.append_assoc]
    rw [hshape, List.getLast?_append_cons] at hc
    cases v with
    | nil => exact absurd rfl hv_ne
    | cons v0 vtl =>
      rw [List.getLast?_cons_cons] at hc
      exact hv_all c (mem_of_getLast?_eq _ c hc)
  have htrim : trimSpace (((m ++ ' ' :: (p ++ ' ' :: v)) ++ ['\r']) ++ ['\n']) =
      m ++ ' ' :: (p ++ ' ' :: v) := by
    rw [hassoc]
    exact trimSpace_append_spaces (m ++ ' ' :: (p ++ ' ' :: v)) ['\r', '\n']
      (by decide) hhead hlast
  have hsplit : splitOnChar ' ' (m ++ ' ' :: (p ++ ' ' :: v)) = [m, p, v] := by
    rw [splitOnChar_append ' ' m (p ++ ' ' :: v)
        (notMem_of_clean m ' ' hm_all (by decide)),
      splitOnChar_append ' ' p v (notMem_of_clean p ' ' hp_all (by decide)),
      splitOnChar_eq_single ' ' v (notMem_of_clean v ' ' hv_all (by decide))]
  have hheaders :
      parseHeaders (renderHeaders hs ++ '\r' :: '\n' :: rest) [] [] =
        some (collectHeaders hs, rest) := by
    rw [parseHeaders_render hs [] rest hwf]
    rfl
  rw [hinput] at hbuf ⊢
  unfold parseRequest
  rw [hread]
  simp only [htrim, hsplit]
  rw [hheaders]
  simp only [hcl, hatoi]
  rw [if_pos hpos, hrest_ne]
  simp only [Bool.false_eq_true, ite_false]
  rw [hbuf]
  simp only [← hn]


/-- C2: the body read is a single `bufio` read whose byte count the code
discards, so a request whose headers and body straddle the 4096-byte fill
boundary parses with a zero-padded body even though every `Content-Length`
byte is available on the stream: the 46 header bytes of this request leave
4050 bytes buffered after the first 4096-byte fill, the single `Read` copies
only those, and the last of the 4051 available body bytes comes back as NUL
instead of `a` — not the byte-for-byte body the claim and the spec's
round-trip property require. -/
theorem c2_single_read_zero_pads :
    parseRequest
        (("POST".data ++ ' ' :: ("/submit".data ++ ' ' :: "HTTP/1.1".data)) ++
          '\r' :: '\n' ::
          (renderHeaders [("Content-Length".data, "4051".data)] ++
            '\r' :: '\n' :: List.replicate 4051 'a')) =
      Except.ok
        { Method := "POST", Path := "/submit", Version := "HTTP/1.1",
          Headers := [("Content-Length", "4051")],
          Body := String.mk (List.replicate 4050 'a' ++ [Char.ofNat 0]) } ∧
    (List.replicate 4051 'a').length = 4051 ∧
    Atoi "4051" = some 4051 ∧
    String.mk (List.replicate 4050 'a' ++ [Char.ofNat 0]) ≠
      String.mk (List.replicate 4051 'a') := by
  refine ⟨?_, List.length_replicate 4051 'a', by decide, ?_⟩
  · have hPR :
        (("POST".data ++ ' ' :: ("/submit".data ++ ' ' :: "HTTP/1.1".data)) ++
            '\r' :: '\n' ::
            (renderHeaders [("Content-Length".data, "4051".data)] ++
              '\r' :: '\n' :: List.replicate 4051 'a')) =
          (("POST".data ++ ' ' :: ("/submit".data ++ ' ' :: "HTTP/1.1".data)) ++
            '\r' :: '\n' :: ("Content-Length".data ++ ':' :: "4051".data ++
              ['\r', '\n', '\r', '\n'])) ++ List.replicate 4051 'a' := by
      simp only [renderHeaders, renderHeader, List.foldr_cons, List.foldr_nil,
        List.append_assoc, List.cons_append, List.nil_append, List.append_nil,
        List.singleton_append]
    have hP46len :
        (("POST".data ++ ' ' :: ("/submit".data ++ ' ' :: "HTTP/1.1".data)) ++
          '\r' :: '\n' :: ("Content-Length".data ++ ':' :: "4051".data ++
            ['\r', '\n', '\r', '\n'])).length = 46 := rfl
    have hIlen :
        (("POST".data ++ ' ' :: ("/submit".data ++ ' ' :: "HTTP/1.1".data)) ++
            '\r' :: '\n' ::
            (renderHeaders [("Content-Length".data, "4051".data)] ++
              '\r' :: '\n' :: List.replicate 4051 'a')).length = 4097 := by
      rw [hPR, List.length_append, List.length_replicate, hP46len]
    have htake46 :
        (("POST".data ++ ' ' :: ("/submit".data ++ ' ' :: "HTTP/1.1".data)) ++
            '\r' :: '\n' ::
            (renderHeaders [("Content-Length".data, "4051".data)] ++
              '\r' :: '\n' :: List.replicate 4051 'a')).take
          ((("POST".data ++ ' ' :: ("/submit".data ++ ' ' :: "HTTP/1.1".data)) ++
              '\r' :: '\n' ::
              (renderHeaders [("Content-Length".data, "4051".data)] ++
                '\r' :: '\n' :: List.replicate 4051 'a')).length -
            (List.replicate 4051 'a').length) =
          ("POST".data ++ ' ' :: ("/submit".data ++ ' ' :: "HTTP/1.1".data)) ++
            '\r' :: '\n' :: ("Content-Length".data ++ ':' :: "4051".data ++
              ['\r', '\n', '\r', '\n']) := by
      rw [hIlen, List.length_replicate,
        show (4097 - 4051 : Nat) = 46 from rfl, hPR, ← hP46len, List.take_left]
    have hlens :
        (splitAfterNL
          (("POST".data ++ ' ' :: ("/submit".data ++ ' ' :: "HTTP/1.1".data)) ++
            '\r' :: '\n' :: ("Content-Length".data ++ ':' :: "4051".data ++
              ['\r', '\n', '\r', '\n']))).map List.length = [23, 21, 2] := by
      decide
    have hbuf :
        bufLines
          ((splitAfterNL
            ((("POST".data ++ ' ' :: ("/submit".data ++ ' ' :: "HTTP/1.1".data)) ++
                '\r' :: '\n' ::
                (renderHeaders [("Content-Length".data, "4051".data)] ++
                  '\r' :: '\n' :: List.replicate 4051 'a')).take
              ((("POST".data ++ ' ' :: ("/submit".data ++ ' ' :: "HTTP/1.1".data)) ++
                  '\r' :: '\n' ::
                  (renderHeaders [("Content-Length".data, "4051".data)] ++
                    '\r' :: '\n' :: List.replicate 4051 'a')).length -
                (List.replicate 4051 'a').length))).map List.length)
          0
          (("POST".data ++ ' ' :: ("/submit".data ++ ' ' :: "HTTP/1.1".data)) ++
              '\r' :: '\n' ::
              (renderHeaders [("Content-Length".data, "4051".data)] ++
                '\r' :: '\n' :: List.replicate 4051 'a')).length =
          some (4050, 1) := by
      rw [htake46, hlens, hIlen]
      decide
    have hn : (4050 : Nat) =
        min (4051 : Int).toNat
          (if 0 < 4050 then (4050 : Nat)
           else (List.replicate 4051 'a').length) := by
      rw [if_pos (show (0 : Nat) < 4050 by decide)]
      decide
    have h := parseRequest_single_read "POST".data "/submit".data
      "HTTP/1.1".data [("Content-Length".data, "4051".data)]
      (List.replicate 4051 'a') "4051" 4051 4050 1 4050
      (by decide) (by decide) (by decide) (by decide) (by decide) (by decide)
      (by decide) (by decide) hbuf hn
    refine h.trans ?_
    simp only [List.take_replicate, show min 4050 4051 = 4050 from rfl,
      show ((4051 : Int).toNat - 4050 : Nat) = 1 from rfl,
      show List.replicate 1 (Char.ofNat 0) = [Char.ofNat 0] from rfl]
    rfl
  · intro h
    injection h with hl
    have hmem : Char.ofNat 0 ∈ List.replicate 4051 'a' := by
      rw [← hl]
      exact List.mem_append_right _ (List.mem_singleton.mpr rfl)
    exact absurd (List.eq_of_mem_replicate hmem) (by decide)

/-- C3: with middlewares `A` then `B` registered in that order around final
handler `H`, the handler composed by the dispatch-time wrapping loop runs
A-before, B-before, H, B-after, A-after: the first-registered middleware is
the outermost layer. -/
theorem c3_middleware_order (A B H : String) :
    wrapMiddleware [tMw A, tMw B] (tH H) [] =
      [A ++ "-before", B ++ "-before", H, B ++ "-after", A ++ "-after"] := by
  simp [wrapMiddleware, tMw, tH]

/-- C6: the code accepts a negative `Content-Length` instead of failing the
request: `strconv.Atoi("-5")` succeeds with `-5`, the body branch is skipped
because `-5 > 0` is false, and the request parses with an empty body rather
than producing an invalid-Content-Length error. -/
theorem c6_negative_cl_accepted :
    parseRequest "GET / HTTP/1.1\r\nContent-Length: -5\r\n\r\n".data =
      Except.ok
        { Method := "GET", Path := "/", Version := "HTTP/1.1",
          Headers := [("Content-Length", "-5")], Body := "" } ∧
    Atoi "-5" = some (-5) := by
  exact ⟨rfl, by decide⟩

/-- C10: once the headers are flushed, a later `WriteHeader` with a different
code is a complete no-op, so the stored status code (and `Status()`) still
reports the code that went to the wire. -/
theorem c10_status_frozen_after_flush (w : response) (code : Nat)
    (hflag : w.wroteHeader = true) (_hne : code ≠ w.statusCode) :
    w.WriteHeader code = (w, []) ∧
    (w.WriteHeader code).1.Status = w.Status := by
  simp [response.WriteHeader, hflag, response.Status]

theorem c10_status_frozen_witness :
    (newResponse.WriteHeader 200).1.WriteHeader 500 =
      ((newResponse.WriteHeader 200).1, []) ∧
    ((newResponse.WriteHeader 200).1.WriteHeader 500).1.Status = 200 := by
  have h := c10_status_frozen_after_flush (newResponse.WriteHeader 200).1 500
    (by decide) (by decide)
  exact ⟨h.1, h.2.trans (by decide)⟩

lemma findHandler_Handle_self (rt : Router) (m p : String) (h : HandlerFunc) :
    (rt.Handle m p h).findHandler m p = h := by
  simp [Router.Handle, Router.findHandler]

lemma findHandler_Handle_ne (rt : Router) (m p m0 p0 : String) (h : HandlerFunc)
    (hne : ¬(m = m0 ∧ p = p0)) :
    (rt.Handle m0 p0 h).findHandler m p = rt.findHandler m p := by
  simp [Router.Handle, Router.findHandler, hne]

lemma findHandler_applyRegs (regs : List (String × String × HandlerFunc)) :
    ∀ (rt : Router) (m p : String),
    (applyRegs rt regs).findHandler m p =
      (lastFor regs m p).getD (rt.findHandler m p) := by
  induction regs with
  | nil =>
    intro rt m p
    simp [applyRegs, lastFor]
  | cons e t ih =>
    intro rt m p
    have happ : applyRegs rt (e :: t) = applyRegs (rt.Handle e.1 e.2.1 e.2.2) t := rfl
    rw [happ, ih]
    by_cases hmatch : e.1 = m ∧ e.2.1 = p
    · have hself : (rt.Handle e.1 e.2.1 e.2.2).findHandler m p = e.2.2 := by
        rcases hmatch with ⟨h1, h2⟩
        rw [← h1, ← h2]
        exact findHandler_Handle_self rt _ _ _
      have hpred : (e.1 == m && e.2.1 == p) = true := by
        simp [hmatch.1, hmatch.2]
      have hfilt : List.filter (fun e0 => e0.1 == m && e0.2.1 == p) (e :: t) =
          e :: List.filter (fun e0 => e0.1 == m && e0.2.1 == p) t := by
        simp [List.filter_cons, hpred]
      rw [hself]
      simp only [lastFor, hfilt]
      cases hft : List.filter (fun e0 => e0.1 == m && e0.2.1 == p) t with
      | nil => simp [hft]
      | cons x xs =>
        rw [List.getLast?_cons_cons]
        cases hgl : (x :: xs).getLast? with
        | none =>
          rw [List.getLast?_eq_none_iff] at hgl
          exact absurd hgl (List.cons_ne_nil x xs)
        | some y => simp [hgl]
    · have hpred : (e.1 == m && e.2.1 == p) = false := by
        by_contra hc
        rw [Bool.not_eq_false] at hc
        simp only [Bool.and_eq_true, beq_iff_eq] at hc
        exact hmatch hc
      have hfilt : List.filter (fun e0 => e0.1 == m && e0.2.1 == p) (e :: t) =
          List.filter (fun e0 => e0.1 == m && e0.2.1 == p) t := by
        simp [List.filter_cons, hpred]
      rw [findHandler_Handle_ne rt m p e.1 e.2.1 e.2.2
        (fun hc => hmatch ⟨hc.1.symm, hc.2.symm⟩)]
      simp only [lastFor, hfilt]

/-- C1: resolving through a router built by a sequence of registrations
returns exactly the most recently registered handler for the pair
(last registration wins), an unregistered pair resolves to the configured
fallback, and the default fallback of `NewRouter` responds with a 404. -/
theorem c1_router_resolve (regs : List (String × String × HandlerFunc))
    (m p : String) (r : Request) :
    ((applyRegs NewRouter regs).findHandler m p =
        (lastFor regs m p).getD (NewRouter.findHandler m p)) ∧
    NewRouter.findHandler m p = NewRouter.notFoundHandler ∧
    (NewRouter.notFoundHandler newResponse r).1.Status = 404 ∧
    (NewRouter.notFoundHandler newResponse r).2 =
      [Chunk.statusLine 404 "Not Found",
       Chunk.headerLine "Content-Type" "text/plain; charset=utf-8",
       Chunk.headerEnd,
       Chunk.body "404 Not Found".data] :=
  ⟨findHandler_applyRegs regs NewRouter m p, rfl, rfl, rfl⟩

/-- C5 counterexample: with `GET /` registered and the default fallback, a
`DELETE /` request (an unsupported method on a registered path) is answered
with 404 by the fallback, not with 405 as the claim states. -/
theorem c5_unsupported_method_counterexample :
    wireStatus
        (Server.handleConnection
          { router := NewRouter.Handle "GET" "/" homeHandler, middleware := [] }
          "DELETE / HTTP/1.1\r\n\r\n".data) = some 404 ∧
    ¬ wireStatus
        (Server.handleConnection
          { router := NewRouter.Handle "GET" "/" homeHandler, middleware := [] }
          "DELETE / HTTP/1.1\r\n\r\n".data) = some 405 := by
  constructor
  · rfl
  · intro hc
    rw [show wireStatus
        (Server.handleConnection
          { router := NewRouter.Handle "GET" "/" homeHandler, middleware := [] }
          "DELETE / HTTP/1.1\r\n\r\n".data) = some 404 from rfl] at hc
    simp at hc

/-- C5 amended: an unmatched (method, path) pair — whether or not the path is
registered under another method — always resolves to the configured fallback;
the default fallback responds 404, and the static-file handler, when
installed as the fallback, responds 405 to every non-GET request. -/
theorem c5_fallback_behaviour (rt : Router)
    (regs : List (String × String × HandlerFunc)) (m p : String) (r : Request)
    (clean : String → String) (readFile : String → Option (List Char))
    (mimeOf : String → String) (w : response)
    (hmiss : lastFor regs m p = none)
    (hmethod : r.Method ≠ "GET") :
    ((applyRegs rt regs).findHandler m p = rt.findHandler m p) ∧
    (NewRouter.notFoundHandler newResponse r).1.Status = 404 ∧
    serveStaticFile clean readFile mimeOf w r = httpError w 405 ∧
    wireStatus (httpError newResponse 405).2 = some 405 := by
  refine ⟨?_, rfl, ?_, rfl⟩
  · rw [findHandler_applyRegs regs rt m p, hmiss]
    rfl
  · simp [serveStaticFile, hmethod]

theorem c5_fallback_witness :
    (applyRegs NewRouter [("GET", "/", homeHandler)]).findHandler "DELETE" "/" =
      NewRouter.findHandler "DELETE" "/" ∧
    serveStaticFile id (fun _ => none) (fun _ => "") newResponse
        { Method := "DELETE", Path := "/", Version := "HTTP/1.1",
          Headers := [], Body := "" } =
      httpError newResponse 405 := by
  have h := c5_fallback_behaviour NewRouter [("GET", "/", homeHandler)]
    "DELETE" "/"
    { Method := "DELETE", Path := "/", Version := "HTTP/1.1",
      Headers := [], Body := "" }
    id (fun _ => none) (fun _ => "") newResponse rfl (by decide)
  exact ⟨h.1, h.2.2.1⟩

/-- C7: when the first CRLF-terminated line does not split on single spaces
into exactly three tokens, `parseRequest` fails with the malformed-request
error and the connection handler answers 400 on the wire. -/
theorem c7_malformed_request_line (srv : Server) (input line rest : List Char)
    (hline : readLine input = some (line, rest))
    (htok : (splitOnChar ' ' (trimSpace line)).length ≠ 3) :
    parseRequest input = Except.error ParseErr.malformedRequestLine ∧
    Server.handleConnection srv input = (httpError newResponse 400).2 ∧
    wireStatus (Server.handleConnection srv input) = some 400 := by
  have hparse : parseRequest input = Except.error ParseErr.malformedRequestLine := by
    unfold parseRequest
    rw [hline]
    rcases hsp : splitOnChar ' ' (trimSpace line) with _ | ⟨a, _ | ⟨b, _ | ⟨c, _ | ⟨d, t⟩⟩⟩⟩
    · simp [hsp]
    · simp [hsp]
    · simp [hsp]
    · rw [hsp] at htok
      simp at htok
    · simp [hsp]
  have hconn : Server.handleConnection srv input = (httpError newResponse 400).2 := by
    unfold Server.handleConnection
    rw [hparse]
  exact ⟨hparse, hconn, by rw [hconn]; decide⟩

theorem c7_malformed_witness :
    parseRequest "BADREQUEST\r\n\r\n".data =
      Except.error ParseErr.malformedRequestLine ∧
    wireStatus
        (Server.handleConnection { router := NewRouter, middleware := [] }
          "BADREQUEST\r\n\r\n".data) = some 400 := by
  have h := c7_malformed_request_line { router := NewRouter, middleware := [] }
    "BADREQUEST\r\n\r\n".data "BADREQUEST\r\n".data "\r\n".data
    (by decide) (by decide)
  exact ⟨h.1, h.2.2⟩

lemma WriteHeader_fresh (rw : response) (c : Nat) (h : rw.wroteHeader = false) :
    rw.WriteHeader c =
      ({ rw with statusCode := c, wroteHeader := true },
        Chunk.statusLine c (StatusText c)
          :: rw.headers.map (fun kv => Chunk.headerLine kv.1 kv.2)
          ++ [Chunk.headerEnd]) := by
  simp [response.WriteHeader, h]

lemma Write_flushed (rw : response) (d : List Char) (h : rw.wroteHeader = true) :
    rw.Write d = (rw, [Chunk.body d]) := by
  simp [response.Write, h]

/-- C8: a first `Write` before headers are finalized, with no
`Content-Length` set, stores `Content-Length = len(data)` for this single
write and emits the status line, all headers (including the injected
`Content-Length`), the blank line, and only then the body bytes. -/
theorem c8_first_write_finalizes (w : response) (data : List Char)
    (hflag : w.wroteHeader = false)
    (hcl : mapGet w.headers "Content-Length" = none) :
    w.Write data =
      ({ headers := mapSet w.headers "Content-Length" (toString data.length),
         statusCode := w.statusCode, wroteHeader := true },
       Chunk.statusLine w.statusCode (StatusText w.statusCode)
         :: ((mapSet w.headers "Content-Length" (toString data.length)).map
              (fun kv => Chunk.headerLine kv.1 kv.2)
            ++ [Chunk.headerEnd, Chunk.body data])) ∧
    mapGet (mapSet w.headers "Content-Length" (toString data.length))
        "Content-Length" = some (toString data.length) := by
  constructor
  · simp [response.Write, response.SetHeader, response.WriteHeader, hflag, hcl]
  · exact mapGet_mapSet_self _ _ _

theorem c8_first_write_witness :
    newResponse.Write ('H' :: 'i' :: []) =
      ({ headers := [("Content-Length", "2")], statusCode := 200,
         wroteHeader := true },
       [Chunk.statusLine 200 "OK", Chunk.headerLine "Content-Length" "2",
        Chunk.headerEnd, Chunk.body ('H' :: 'i' :: [])]) ∧
    mapGet [("Content-Length", "2")] "Content-Length" = some "2" := by
  have h := c8_first_write_finalizes newResponse ('H' :: 'i' :: []) rfl rfl
  exact ⟨h.1.trans (by decide), by decide⟩

/-- C9: on the explicit `WriteHeader`-then-`Write` path, no `Content-Length`
is ever injected: the flushed header block contains no Content-Length line,
the stored headers still lack the key afterwards, and the later `Write` emits
only body bytes. -/
theorem c9_no_auto_cl_on_explicit_writeheader (w : response) (code : Nat)
    (data : List Char)
    (hflag : w.wroteHeader = false)
    (hcl : mapGet w.headers "Content-Length" = none) :
    (∀ k v0, Chunk.headerLine k v0 ∈
        (w.WriteHeader code).2 ++ ((w.WriteHeader code).1.Write data).2 →
      k ≠ "Content-Length") ∧
    mapGet ((w.WriteHeader code).1.Write data).1.headers "Content-Length"
      = none ∧
    ((w.WriteHeader code).1.Write data).2 = [Chunk.body data] := by
  have hwh := WriteHeader_fresh w code hflag
  have hflag1 : (w.WriteHeader code).1.wroteHeader = true := by rw [hwh]
  have hwr := Write_flushed (w.WriteHeader code).1 data hflag1
  refine ⟨?_, ?_, by rw [hwr]⟩
  · intro k v0 hmem
    rw [hwr, hwh] at hmem
    simp only [List.append_assoc, List.cons_append, List.mem_cons,
      List.mem_append, List.mem_map, List.mem_singleton] at hmem
    rcases hmem with h1 | hrest
    · cases h1
    rcases hrest with h2 | h3
    · obtain ⟨kv, hkv, heq⟩ := h2
      have hk : kv.1 = k := by
        injection heq with hk _
      rw [← hk]
      exact key_ne_of_mapGet_none w.headers "Content-Length" hcl kv hkv
    · simp at h3
  · rw [hwr, hwh]
    exact hcl

theorem c9_no_auto_cl_witness :
    mapGet (((newResponse.WriteHeader 200).1.Write ('x' :: [])).1).headers
        "Content-Length" = none ∧
    ((newResponse.WriteHeader 200).1.Write ('x' :: [])).2 =
      [Chunk.body ('x' :: [])] := by
  have h := c9_no_auto_cl_on_explicit_writeheader newResponse 200 ('x' :: [])
    rfl rfl
  exact ⟨h.2.1, h.2.2⟩

lemma Write_fresh (rw : response) (d : List Char) (h : rw.wroteHeader = false) :
    ∃ rw1 : response, rw1.wroteHeader = false ∧
      rw.Write d =
        ((rw1.WriteHeader rw1.statusCode).1,
          (rw1.WriteHeader rw1.statusCode).2 ++ [Chunk.body d]) := by
  by_cases hcl : (mapGet rw.headers "Content-Length").isNone = true
  · refine ⟨rw.SetHeader "Content-Length" (toString d.length), h, ?_⟩
    simp [response.Write, h, hcl]
  · refine ⟨rw, h, ?_⟩
    simp [response.Write, h, hcl]

lemma runOps_flushed (ops : List ROp) :
    ∀ rw : response, rw.wroteHeader = true →
    (runOps rw ops).1.wroteHeader = true ∧
    ∀ c ∈ (runOps rw ops).2, isBodyChunk c = true := by
  induction ops with
  | nil =>
    intro rw h
    exact ⟨h, by simp [runOps]⟩
  | cons op t ih =>
    intro rw h
    cases op with
    | setHeader k v =>
      have hr := ih (rw.SetHeader k v) h
      simpa [runOps, runOp] using hr
    | writeHeader c =>
      have hwh : rw.WriteHeader c = (rw, []) := by
        simp [response.WriteHeader, h]
      have hr := ih rw h
      simpa [runOps, runOp, hwh] using hr
    | write d =>
      have hw := Write_flushed rw d h
      have hr := ih rw h
      simp only [runOps, runOp, hw]
      refine ⟨hr.1, ?_⟩
      intro c hc
      simp only [List.cons_append, List.nil_append, List.mem_cons] at hc
      rcases hc with hc | hc
      · rw [hc]; rfl
      · exact hr.2 c hc

lemma runOps_fresh (ops : List ROp) :
    ∀ rw : response, rw.wroteHeader = false →
    ((runOps rw ops).1.wroteHeader = false ∧ (runOps rw ops).2 = []) ∨
    (∃ (code : Nat) (text : String) (hs : List (String × String))
        (tail : List Chunk),
      (runOps rw ops).2 =
        Chunk.statusLine code text
          :: (hs.map (fun kv => Chunk.headerLine kv.1 kv.2)
            ++ Chunk.headerEnd :: tail) ∧
      ∀ c ∈ tail, isBodyChunk c = true) := by
  induction ops with
  | nil =>
    intro rw h
    exact Or.inl ⟨h, rfl⟩
  | cons op t ih =>
    intro rw h
    cases op with
    | setHeader k v =>
      rcases ih (rw.SetHeader k v) h with ⟨h1, h2⟩ | ⟨c0, t0, hs0, tail, heq, htail⟩
      · exact Or.inl ⟨h1, by simpa [runOps, runOp] using h2⟩
      · exact Or.inr ⟨c0, t0, hs0, tail, by simpa [runOps, runOp] using heq, htail⟩
    | writeHeader c =>
      have hwh := WriteHeader_fresh rw c h
      have hfl := runOps_flushed t (rw.WriteHeader c).1 (by rw [hwh])
      refine Or.inr ⟨c, StatusText c, rw.headers, (runOps (rw.WriteHeader c).1 t).2,
        ?_, hfl.2⟩
      simp only [runOps, runOp]
      rw [hwh]
      simp
    | write d =>
      obtain ⟨rw1, h1, hw⟩ := Write_fresh rw d h
      have hwh := WriteHeader_fresh rw1 rw1.statusCode h1
      have hflag2 : (rw.Write d).1.wroteHeader = true := by
        rw [hw, hwh]
      have hfl := runOps_flushed t (rw.Write d).1 hflag2
      refine Or.inr ⟨rw1.statusCode, StatusText rw1.statusCode, rw1.headers,
        Chunk.body d :: (runOps (rw.Write d).1 t).2, ?_, ?_⟩
      · simp only [runOps, runOp]
        rw [hw, hwh]
        simp
      · intro c hc
        rcases List.mem_cons.mp hc with hc | hc
        · rw [hc]; rfl
        · exact hfl.2 c hc

lemma countP_status_of_all_body (l : List Chunk)
    (h : ∀ c ∈ l, isBodyChunk c = true) :
    l.countP (fun c => isStatusChunk c) = 0 := by
  rw [List.countP_eq_zero]
  intro a ha
  have hb := h a ha
  cases a with
  | statusLine code text => simp [isBodyChunk] at hb
  | headerLine k v => simp [isBodyChunk] at hb
  | headerEnd => simp [isBodyChunk] at hb
  | body d => simp [isStatusChunk]

lemma countP_status_headerBlock (c0 : Nat) (t0 : String)
    (hs0 : List (String × String)) :
    (Chunk.statusLine c0 t0
        :: (hs0.map (fun kv => Chunk.headerLine kv.1 kv.2)
          ++ [Chunk.headerEnd])).countP (fun c => isStatusChunk c) = 1 := by
  rw [List.countP_cons_of_pos _ _ (by simp [isStatusChunk])]
  rw [List.countP_append]
  rw [List.countP_eq_zero.mpr (by
    intro a ha
    obtain ⟨kv, _, rfl⟩ := List.mem_map.mp ha
    simp [isStatusChunk])]
  simp [List.countP_cons, isStatusChunk]

lemma no_body_in_headerBlock (c0 : Nat) (t0 : String)
    (hs0 : List (String × String)) (b : List Char) :
    Chunk.body b ∉
      (Chunk.statusLine c0 t0
        :: (hs0.map (fun kv => Chunk.headerLine kv.1 kv.2)
          ++ [Chunk.headerEnd])) := by
  intro hmem
  simp only [List.mem_cons, List.mem_append, List.mem_map,
    List.mem_singleton] at hmem
  rcases hmem with h1 | h2 | h3 | h4
  · cases h1
  · obtain ⟨kv, _, heq⟩ := h2
    cases heq
  · cases h3
  · exact absurd h4 (List.not_mem_nil _)

/-- C4: over any sequence of handler calls on a fresh response writer, the
status line reaches the wire at most once, every body chunk is preceded by
exactly one status line (headers are flushed before any body bytes), and once
the writer is flushed a further `WriteHeader` emits nothing. -/
theorem c4_headers_once_before_body (ops : List ROp) (code : Nat) :
    ((runOps newResponse ops).2.countP (fun c => isStatusChunk c) ≤ 1) ∧
    (∀ pre b suf, (runOps newResponse ops).2 = pre ++ Chunk.body b :: suf →
      pre.countP (fun c => isStatusChunk c) = 1) ∧
    ((runOps newResponse ops).1.wroteHeader = true →
      (runOps newResponse ops).1.WriteHeader code =
        ((runOps newResponse ops).1, [])) := by
  have hshape := runOps_fresh ops newResponse rfl
  refine ⟨?_, ?_, ?_⟩
  · rcases hshape with ⟨_, h2⟩ | ⟨c0, t0, hs0, tail, heq, htail⟩
    · rw [h2]
      simp
    · have heqX : (runOps newResponse ops).2 =
          (Chunk.statusLine c0 t0
            :: (hs0.map (fun kv => Chunk.headerLine kv.1 kv.2)
              ++ [Chunk.headerEnd])) ++ tail := by
        rw [heq]
        simp
      rw [heqX, List.countP_append, countP_status_headerBlock,
        countP_status_of_all_body tail htail]
  · intro pre b suf hdec
    rcases hshape with ⟨_, h2⟩ | ⟨c0, t0, hs0, tail, heq, htail⟩
    · rw [h2] at hdec
      exact absurd hdec.symm (by simp)
    · have heqX :
          (Chunk.statusLine c0 t0
            :: (hs0.map (fun kv => Chunk.headerLine kv.1 kv.2)
              ++ [Chunk.headerEnd])) ++ tail = pre ++ Chunk.body b :: suf := by
        rw [← hdec, heq]
        simp
      rcases List.append_eq_append_iff.mp heqX with ⟨a, hpre, htail2⟩ |
        ⟨c', hX2, hd⟩
      · rw [hpre, List.countP_append, countP_status_headerBlock]
        rw [List.countP_eq_zero.mpr (by
          intro x hx
          have hxtail : x ∈ tail := by
            rw [htail2]
            exact List.mem_append_left _ hx
          have hb := htail x hxtail
          cases x with
          | statusLine code text => simp [isBodyChunk] at hb
          | headerLine k v => simp [isBodyChunk] at hb
          | headerEnd => simp [isBodyChunk] at hb
          | body d => simp [isStatusChunk])]
      · cases c' with
        | nil =>
          rw [List.append_nil] at hX2
          rw [← hX2, countP_status_headerBlock]
        | cons c0' ctl =>
          exfalso
          have hc0 : c0' = Chunk.body b := by
            rw [List.cons_append] at hd
            exact (List.cons.injEq _ _ _ _ ▸ hd).1.symm ▸ rfl
          apply no_body_in_headerBlock c0 t0 hs0 b
          rw [hX2, hc0]
          exact List.mem_append_right _ (List.mem_cons_self _ _)
  · intro hfl
    simp [response.WriteHeader, hfl]

theorem c4_headers_once_witness :
    ((runOps newResponse [ROp.write ('h' :: 'i' :: [])]).2.countP
        (fun c => isStatusChunk c) ≤ 1) ∧
    ([Chunk.statusLine 200 "OK", Chunk.headerLine "Content-Length" "2",
        Chunk.headerEnd].countP (fun c => isStatusChunk c) = 1) ∧
    ((runOps newResponse [ROp.write ('h' :: 'i' :: [])]).1.WriteHeader 500 =
      ((runOps newResponse [ROp.write ('h' :: 'i' :: [])]).1, [])) := by
  have h := c4_headers_once_before_body [ROp.write ('h' :: 'i' :: [])] 500
  refine ⟨h.1, ?_, h.2.2 (by decide)⟩
  exact h.2.1
    [Chunk.statusLine 200 "OK", Chunk.headerLine "Content-Length" "2",
      Chunk.headerEnd] ('h' :: 'i' :: []) [] (by decide)
